import Mathlib

/-!
Verification of the agent-orchestration backend: shallow embedding of the
sandboxed tool surface (`app/tools/agent_tools.py`, `app/tools/path_validator.py`)
and of the history codec, token estimator and tool wrappers
(`app/routes/messaging.py`, `app/routes/messaging_tools.py`),
with theorems checking the natural-language specification against the code.
-/

namespace ProjectX

/-! ## String helpers mirroring Python primitives -/

/-- First index at which `pat` occurs as a sublist of `s`
(Python `str.find`; the empty pattern occurs at index 0). -/
def subFind : List Char → List Char → Option Nat
  | [], pat => if pat.isPrefixOf [] then some 0 else none
  | a :: t, pat =>
      if pat.isPrefixOf (a :: t) then some 0
      else (subFind t pat).map (· + 1)

/-- Python `pat in s` on strings (substring containment). -/
def pySubstr (pat s : String) : Bool :=
  (subFind s.data pat.data).isSome

/-- Python `s.replace(old, new, 1)`: replace the first occurrence only. -/
def replaceFirst (s old new : String) : String :=
  match subFind s.data old.data with
  | none => s
  | some i => ⟨s.data.take i ++ new.data ++ s.data.drop (i + old.data.length)⟩

/-- Python whitespace characters relevant to `str.rstrip()`. -/
def isPyWhitespace (c : Char) : Bool :=
  c = ' ' || c = '\t' || c = '\n' || c = '\x0d' || c = '\x0b' || c = '\x0c'

/-- Python `line.rstrip()`: drop all trailing whitespace. -/
def pyRstrip (s : String) : String :=
  ⟨(s.data.reverse.dropWhile isPyWhitespace).reverse⟩

/-- Python `s.startswith(pre)`. -/
def strStartsWith (s pre : String) : Bool :=
  pre.data.isPrefixOf s.data

/-- Python `s.endswith(suf)`. -/
def strEndsWith (s suf : String) : Bool :=
  suf.data.isSuffixOf s.data

/-- Python `s[n:]`. -/
def strDrop (s : String) (n : Nat) : String :=
  ⟨s.data.drop n⟩

/-- Insertion of a string into a lexicographically sorted list. -/
def insertSorted (x : String) : List String → List String
  | [] => [x]
  | y :: ys => if x ≤ y then x :: y :: ys else y :: insertSorted x ys

/-- Python `sorted` on a list of strings (stable sort by `≤`). -/
def sortStrings : List String → List String
  | [] => []
  | x :: xs => insertSorted x (sortStrings xs)

/-! ## Python-style exceptions and results -/

/-- Exceptions the tool layer can raise: `ModelRetry` (retryable transient),
`ValueError`, or a plain `Exception`.  In Python all three derive from
`Exception`, so a bare `except Exception` catches `ModelRetry` as well. -/
inductive PyExc
  | modelRetry (msg : String)
  | valueError (msg : String)
  | plainExc (msg : String)
deriving DecidableEq

/-- Message carried by an exception (`str(e)`). -/
def PyExc.msg : PyExc → String
  | .modelRetry m => m
  | .valueError m => m
  | .plainExc m => m

/-- Outcome of running a Python function: a returned value or a raised exception. -/
inductive PyResult (α : Type)
  | returned (a : α)
  | raised (e : PyExc)
deriving DecidableEq

/-! ## File store and `edit_file` / `write_file` (`app/tools/agent_tools.py`) -/

/-- The sandbox file store: association list from path to file content. -/
abbrev FileStore := List (String × String)

/-- Content of the file at `path`, if it exists. -/
def lookupFile (fs : FileStore) (path : String) : Option String :=
  match fs with
  | [] => none
  | (p, c) :: t => if p = path then some c else lookupFile t path

/-- Store `content` at `path`, overwriting any previous content. -/
def setFile (fs : FileStore) (path content : String) : FileStore :=
  match fs with
  | [] => [(path, content)]
  | (p, c) :: t => if p = path then (p, content) :: t else (p, c) :: setFile t path content

/-- `write_file(path, content)`: store the content and report the byte count. -/
def writeFile (fs : FileStore) (path content : String) : FileStore × PyResult String :=
  (setFile fs path content,
   .returned ("Successfully wrote " ++ toString content.length ++ " bytes to " ++ path))

/-- `edit_file(path, old, new)`: replace the first occurrence of `old` by `new`;
raise if the file is missing or `old` does not occur verbatim.  Every inner
exception is re-wrapped into a plain `Exception` whose message starts with
`Error editing file`. -/
def editFile (fs : FileStore) (path old new : String) : FileStore × PyResult String :=
  match lookupFile fs path with
  | none =>
      (fs, .raised (.plainExc ("Error editing file " ++ path ++ ": File not found: " ++ path)))
  | some content =>
      if pySubstr old content then
        (setFile fs path (replaceFirst content old new),
         .returned ("Successfully edited " ++ path))
      else
        (fs, .raised (.plainExc ("Error editing file " ++ path ++
          ": Could not find old_content in file. Make sure the text matches exactly.")))

/-! ## `search_in_files` (`app/tools/agent_tools.py`) -/

/-- A file visited by `search_in_files`: its path and, when it can be read,
its raw lines as produced by `readlines()` (trailing newline kept). -/
structure SFile where
  path : String
  lines : Option (List String)
deriving DecidableEq

/-- The inner loop of `search_in_files`: `for i, line in enumerate(lines, start)`,
collecting `(line_number, line.rstrip())` for every line containing `pattern`. -/
def collectMatches (pattern : String) : Nat → List String → List (Nat × String)
  | _, [] => []
  | i, l :: ls =>
      if pySubstr pattern l then (i, pyRstrip l) :: collectMatches pattern (i + 1) ls
      else collectMatches pattern (i + 1) ls

/-- `search_in_files(pattern, …)` over the matched files: plain substring search,
skipping unreadable files, omitting files with no matching line. -/
def searchInFiles (pattern : String) : List SFile → List (String × List (Nat × String))
  | [] => []
  | f :: fs =>
      match f.lines with
      | none => searchInFiles pattern fs
      | some ls =>
          let ms := collectMatches pattern 1 ls
          if ms.isEmpty then searchInFiles pattern fs
          else (f.path, ms) :: searchInFiles pattern fs

/-- Spec-side rendering of a line with only trailing newline characters stripped
(the spec says: content with trailing newlines stripped). -/
def stripTrailingNewlines (s : String) : String :=
  ⟨(s.data.reverse.dropWhile (fun c => c = '\n')).reverse⟩

/-! ## `list_files` (`app/tools/agent_tools.py`) -/

/-- An entry produced by `glob`/`rglob` under the scanned root: its path
relative to the root, as components, and whether it is a regular file. -/
structure DirEntry where
  comps : List String
  isFile : Bool
deriving DecidableEq

/-- `str(p.relative_to(path))` with `/` as separator. -/
def relPathStr (comps : List String) : String :=
  String.intercalate "/" comps

/-- The `default_exclusions` list, transcribed from the source. -/
def defaultExclusions : List String :=
  ["node_modules", ".git", "__pycache__", ".pytest_cache",
   ".venv", "venv", "env", ".env",
   "dist", "build", ".next", ".nuxt", ".output",
   "coverage", ".coverage", "htmlcov",
   ".DS_Store", "*.pyc", "*.pyo", "*.pyd",
   ".egg-info", "*.egg-info",
   ".tox", ".mypy_cache", ".ruff_cache",
   "target", "bin", "obj"]

/-- One exclusion pattern tested against one path component
(`*`-patterns match by suffix on the component; otherwise the component or the
whole relative path must equal the pattern). -/
def matchesExclusion (relStr part excl : String) : Bool :=
  if strStartsWith excl "*" then strEndsWith part (strDrop excl 1)
  else part = excl || relStr = excl

/-- `should_exclude`: the `.gitignore` spec (when present) or any exclusion
pattern matching any component of the relative path. -/
def shouldExclude (gitignoreMatch : Option (String → Bool)) (exclusions : List String)
    (comps : List String) : Bool :=
  let rel := relPathStr comps
  (match gitignoreMatch with | some g => g rel | none => false) ||
    exclusions.any (fun excl => comps.any (fun part => matchesExclusion rel part excl))

/-- `list_files`: filter the collected entries by exclusions and kind, render
relative paths and sort them.  `excludePatterns = none` selects the defaults;
an explicit list (possibly empty) replaces them. -/
def listFiles (entries : List DirEntry) (excludePatterns : Option (List String))
    (includeDirs : Bool) (gitignoreMatch : Option (String → Bool)) : List String :=
  let exclusions := excludePatterns.getD defaultExclusions
  sortStrings ((entries.filter (fun e =>
    !shouldExclude gitignoreMatch exclusions e.comps && (e.isFile || includeDirs))).map
      (fun e => relPathStr e.comps))

/-! ## Background process registry (`app/tools/agent_tools.py`) -/

/-- How a live child reacts to a stop request: exits within the 5 s grace after
`terminate()`, exits only after `kill()`, or survives even `kill()`. -/
inductive TermBehavior
  | exitsOnTerm
  | exitsOnKill
  | neverDies
deriving DecidableEq

/-- Observable state of a child process handle. -/
inductive ProcState
  | exited (code : Int)
  | running (onStop : TermBehavior)
deriving DecidableEq

/-- An entry of the background-process registry: OS pid, command, state. -/
structure BgProc where
  pid : Nat
  command : String
  state : ProcState
deriving DecidableEq

/-- The process-wide `_background_processes` mapping, keyed by `process_id`. -/
abbrev Registry := List (String × BgProc)

/-- Dictionary lookup. -/
def lookupReg (reg : Registry) (k : String) : Option BgProc :=
  match reg with
  | [] => none
  | (k2, v) :: t => if k2 = k then some v else lookupReg t k

/-- Dictionary insert: replace in place, or append a fresh key. -/
def insertReg (reg : Registry) (k : String) (v : BgProc) : Registry :=
  match reg with
  | [] => [(k, v)]
  | (k2, v2) :: t => if k2 = k then (k, v) :: t else (k2, v2) :: insertReg t k v

/-- Dictionary `del`: the key disappears from the mapping. -/
def eraseReg (reg : Registry) (k : String) : Registry :=
  reg.filter (fun e => !(e.1 = k))

/-- What the ~2 s post-launch probe observes: the child is still running
(with its eventual reaction to a stop), or it already exited with captured output. -/
inductive ChildProbe
  | keepsRunning (onStop : TermBehavior)
  | exitsEarly (code : Int) (stdout stderr : String)
deriving DecidableEq

/-- Transient markers searched for in the lowercased combined output. -/
def transientIndicators : List String :=
  ["eaddrinuse", "port already in use",
   "resource temporarily unavailable",
   "connection refused"]

/-- ASCII lowercasing of one character (`str.lower()` on the ASCII range). -/
def asciiLower (c : Char) : Char :=
  if 65 ≤ c.toNat ∧ c.toNat ≤ 90 then Char.ofNat (c.toNat + 32) else c

/-- ASCII lowercasing of a string. -/
def lowerString (s : String) : String :=
  ⟨s.data.map asciiLower⟩

/-- Whether the combined output of an early-exited child carries a transient marker. -/
def hasTransientIndicator (stdout stderr : String) : Bool :=
  transientIndicators.any (fun ind => pySubstr ind (lowerString (stdout ++ stderr)))

/-- Registry entry state recorded for the launched child after the probe. -/
def probedState (probe : ChildProbe) : ProcState :=
  match probe with
  | .keepsRunning b => .running b
  | .exitsEarly code _ _ => .exited code

/-- `start_background_process(command, process_id, cwd)`.  The child handle is
inserted into the registry *before* the ~2 s probe; when the probe finds the
child already exited, a `ModelRetry` (transient markers) or plain `Exception`
is raised inside the `try`, and the surrounding `except Exception` re-raises
either one as a plain `Exception` — the registry entry is never removed. -/
def startBackgroundProcess (reg : Registry) (command processId : String) (osPid : Nat)
    (probe : ChildProbe) : Registry × PyResult String :=
  let reg2 := insertReg reg processId ⟨osPid, command, probedState probe⟩
  match probe with
  | .keepsRunning _ =>
      (reg2, .returned ("Background process " ++ processId ++
        " started successfully (PID: " ++ toString osPid ++ ")"))
  | .exitsEarly code stdout stderr =>
      let inner : PyExc :=
        if hasTransientIndicator stdout stderr then
          .modelRetry ("Process failed to start due to transient issue (likely port conflict or resource unavailability).\nExit code: " ++
            toString code ++ "\nError: " ++ stderr ++ "\nSuggestion: Retry after a brief delay.")
        else
          .plainExc ("Process exited immediately with code " ++ toString code ++
            ".\nStdout: " ++ stdout ++ "\nStderr: " ++ stderr)
      (reg2, .raised (.plainExc ("Error starting background process " ++ command ++ ": " ++ inner.msg)))

/-- Signals sent to the child by `stop_background_process`. -/
inductive StopAction
  | terminate
  | kill
deriving DecidableEq

/-- `stop_background_process(process_id)`: `ValueError` for an unknown id;
prompt removal when the child already exited; otherwise terminate, escalate to
kill after 5 s, and raise `ModelRetry` if the child survives another 5 s
(leaving the entry in place). -/
def stopBackgroundProcess (reg : Registry) (processId : String) :
    Registry × List StopAction × PyResult String :=
  match lookupReg reg processId with
  | none =>
      (reg, [], .raised (.valueError ("No background process found with ID " ++ processId)))
  | some proc =>
      match proc.state with
      | .exited code =>
          (eraseReg reg processId, [],
           .returned ("Process " ++ processId ++ " was already stopped (exit code: " ++
             toString code ++ ")"))
      | .running .exitsOnTerm =>
          (eraseReg reg processId, [.terminate],
           .returned ("Background process " ++ processId ++ " stopped successfully"))
      | .running .exitsOnKill =>
          (eraseReg reg processId, [.terminate, .kill],
           .returned ("Background process " ++ processId ++ " stopped successfully"))
      | .running .neverDies =>
          (reg, [.terminate, .kill],
           .raised (.modelRetry ("Process " ++ processId ++
             " wont die even after SIGKILL. This is likely a transient system issue. Retrying may succeed.")))

/-- The `(process_id, status, pid)` triples iterated by `list_background_processes`. -/
def listEntries (reg : Registry) : List (String × String × Nat) :=
  reg.map (fun e =>
    (e.1,
     match e.2.state with
     | .running _ => "running"
     | .exited code => "exited (code: " ++ toString code ++ ")",
     e.2.pid))

/-- `list_background_processes()`: render the registry, one line per entry. -/
def listBackgroundProcesses (reg : Registry) : String :=
  if reg.isEmpty then "No background processes running"
  else "Background processes:\n" ++ String.join ((listEntries reg).map (fun t =>
    "  - " ++ t.1 ++ ": " ++ t.2.1 ++ " (PID: " ++ toString t.2.2 ++ ")\n"))

/-! ## Path validator (`app/tools/path_validator.py`) -/

/-- An absolute canonical-form path as its components. -/
abbrev AbsPath := List String

/-- The filesystem oracle seen by the validator: canonical resolution
(`Path.resolve()`, `none` when resolution raises) and the symlink test. -/
structure FsOracle where
  resolveP : List String → Option (List String)
  isLink : List String → Bool

/-- `Path.is_relative_to`: component-wise prefix containment
(so `/tmp` does not contain `/tmp2`). -/
def isWithin (roots : List (List String)) (p : List String) : Bool :=
  roots.any (fun r => r.isPrefixOf p)

/-- The first allowed root the path is relative to, in list order. -/
def firstMatchingRoot (roots : List (List String)) (p : List String) :
    Option (List String) :=
  roots.find? (fun r => r.isPrefixOf p)

/-- The walk of `_check_symlink_chain` below the matched root: for each
component that is a symlink, resolve it and require containment of the target. -/
def walkChain (fs : FsOracle) (roots : List (List String)) :
    List String → List String → Except String Unit
  | _, [] => .ok ()
  | cur, c :: rest =>
      let cur2 := cur ++ [c]
      if fs.isLink cur2 then
        match fs.resolveP cur2 with
        | none => .error "Failed to resolve symlink"
        | some tgt =>
            if isWithin roots tgt then walkChain fs roots cur2 rest
            else .error "symlink points outside allowed directories"
      else walkChain fs roots cur2 rest

/-- `_check_symlink_chain(path)`: find the allowed root containing the original
path (skipping the check entirely when none does) and walk its remaining
components. -/
def checkSymlinkChain (fs : FsOracle) (roots : List (List String))
    (path : List String) : Except String Unit :=
  match firstMatchingRoot roots path with
  | none => .ok ()
  | some root => walkChain fs roots root (path.drop root.length)

/-- An input path: absolute, or relative (resolved against the process cwd). -/
structure InputPath where
  absolute : Bool
  comps : List String
deriving DecidableEq

/-- The absolutized original path used by step 3 of `validate`. -/
def origPath (cwd : List String) (p : InputPath) : List String :=
  if p.absolute then p.comps else cwd ++ p.comps

/-- `PathValidator.validate(file_path)`: resolve, require containment of the
resolved path in an allowed root, then run the symlink-chain check on the
original path; any failure raises (`InvalidPath`), acceptance returns the
resolved path. -/
def validate (fs : FsOracle) (cwd : List String) (roots : List (List String))
    (p : InputPath) : Except String (List String) :=
  let orig := origPath cwd p
  match fs.resolveP orig with
  | none => .error "Failed to resolve path"
  | some resolved =>
      if isWithin roots resolved then
        match checkSymlinkChain fs roots orig with
        | .error e => .error e
        | .ok _ => .ok resolved
      else .error "Path is not within allowed directories"

/-! ## History codec (`convert_db_messages_to_history`, `app/routes/messaging.py`) -/

/-- Role of a persisted message row. -/
inductive MessageRole
  | user
  | agent
deriving DecidableEq

/-- A raw part dictionary from the structured `parts` payload of a row.
`none` fields model a missing (or null) key. -/
structure PartDict where
  part_kind : Option String
  content : Option String
  tool_name : Option String
  args : Option (List (String × String))
  tool_call_id : Option String
deriving DecidableEq

/-- A persisted message row: role, plain-text content, optional parts payload. -/
structure MessageRow where
  role : MessageRole
  content : String
  parts : Option (List PartDict)
deriving DecidableEq

/-- A part of a rebuilt `ModelRequest`. -/
inductive RequestPart
  | userPrompt (content : String)
  | systemPrompt (content : String)
deriving DecidableEq

/-- A part of a rebuilt `ModelResponse` (`TextPart`, `ThinkingPart`,
`ToolCallPart`, `ToolReturnPart`). -/
inductive ResponsePart
  | text (content : String)
  | thinking (content : String)
  | toolCall (toolName : String) (args : List (String × String)) (toolCallId : Option String)
  | toolReturn (toolName : String) (content : Option String) (toolCallId : Option String)
deriving DecidableEq

/-- An agent-graph message. -/
inductive ModelMessage
  | request (parts : List RequestPart)
  | response (parts : List ResponsePart)
deriving DecidableEq

/-- Truthiness of a possibly-missing string (`if tool_call_id:`). -/
def truthyOf (o : Option String) : Option String :=
  match o with
  | some s => if s = "" then none else some s
  | none => none

/-- Record an id into a seen-set when it is truthy. -/
def addTruthy (ids : List String) (o : Option String) : List String :=
  ids ++ (truthyOf o).toList

/-- State of the per-row decoding loop: parts accumulated so far, the
`tool_call_id`s seen on `tool-call` parts and those seen on `tool-return`
parts (only truthy ids are recorded, mirroring `if tool_call_id:`).  The
branch structure mirrors the `if part_kind == … elif …` chain of the source. -/
def decodeStep (acc : List ResponsePart × List String × List String) (pd : PartDict) :
    List ResponsePart × List String × List String :=
  if pd.part_kind = some "text" then
    (acc.1 ++ [.text (pd.content.getD "")], acc.2.1, acc.2.2)
  else if pd.part_kind = some "thinking" then
    (acc.1 ++ [.thinking (pd.content.getD "")], acc.2.1, acc.2.2)
  else if pd.part_kind = some "tool-call" then
    (acc.1 ++ [.toolCall (pd.tool_name.getD "") (pd.args.getD []) pd.tool_call_id],
     addTruthy acc.2.1 pd.tool_call_id, acc.2.2)
  else if pd.part_kind = some "tool-return" then
    (acc.1 ++ [.toolReturn (pd.tool_name.getD "") pd.content pd.tool_call_id],
     acc.2.1, addTruthy acc.2.2 pd.tool_call_id)
  else acc

/-- `isinstance(p, ToolCallPart) and p.tool_call_id in unprocessed_calls`. -/
def isUnprocessedCall (unprocessed : List String) (p : ResponsePart) : Bool :=
  match p with
  | .toolCall _ _ (some s) => s ∈ unprocessed
  | _ => false

/-- Decode one AGENT row with a structured payload: rebuild the parts, drop
`tool-call` parts whose recorded id has no recorded `tool-return`, and fall
back to a single text part when nothing remains. -/
def decodeAgentRow (content : String) (pds : List PartDict) : ModelMessage :=
  let st := pds.foldl decodeStep ([], [], [])
  let unprocessed := st.2.1.filter (fun s => !(st.2.2.contains s))
  let parts := if unprocessed.isEmpty then st.1
    else st.1.filter (fun p => !isUnprocessedCall unprocessed p)
  if parts.isEmpty then .response [.text content] else .response parts

/-- Decode one persisted row. -/
def convertRow (row : MessageRow) : ModelMessage :=
  match row.role with
  | .user => .request [.userPrompt row.content]
  | .agent =>
      match row.parts with
      | some pds => decodeAgentRow row.content pds
      | none => .response [.text row.content]

/-- `convert_db_messages_to_history`. -/
def convertDbMessagesToHistory (rows : List MessageRow) : List ModelMessage :=
  rows.map convertRow

/-! ## Token estimator (`estimate_token_count`, `app/routes/messaging.py`) -/

/-- Character count of `str(d)` for a Python dict with string keys and values:
`2` for the braces, `len(k) + len(v) + 6` per entry (quotes and separator) and
`2` per comma. -/
def pyStrDictLen (l : List (String × String)) : Nat :=
  if l.isEmpty then 2
  else 2 + (l.map (fun kv => kv.1.length + kv.2.length + 6)).sum + 2 * (l.length - 1)

/-- Characters contributed by one request part
(`if hasattr(part, 'content') and part.content`). -/
def requestPartChars (p : RequestPart) : Nat :=
  match p with
  | .userPrompt c => if c = "" then 0 else c.length
  | .systemPrompt c => if c = "" then 0 else c.length

/-- Characters contributed by one response part: truthy content, plus truthy
tool arguments (`if hasattr(part, 'args') and part.args`). -/
def responsePartChars (p : ResponsePart) : Nat :=
  match p with
  | .text c => if c = "" then 0 else c.length
  | .thinking c => if c = "" then 0 else c.length
  | .toolCall _ args _ => if args.isEmpty then 0 else pyStrDictLen args
  | .toolReturn _ c _ =>
      match c with
      | some s => if s = "" then 0 else s.length
      | none => 0

/-- `estimate_token_count(message_history)`: accumulate the character counts
and divide by 4. -/
def estimateTokenCount (history : List ModelMessage) : Nat :=
  (history.foldl (fun total m =>
    match m with
    | .request ps => ps.foldl (fun a p => a + requestPartChars p) total
    | .response ps => ps.foldl (fun a p => a + responsePartChars p) total) 0) / 4

/-- Spec-side footprint of a request part, per the claim: the character length
of its content. -/
def claimRequestChars (p : RequestPart) : Nat :=
  match p with
  | .userPrompt c => c.length
  | .systemPrompt c => c.length

/-- Spec-side footprint of a response part, per the claim: the character length
of its content plus, for tool-call parts, the character length of its
serialized tool arguments. -/
def claimResponseChars (p : ResponsePart) : Nat :=
  match p with
  | .text c => c.length
  | .thinking c => c.length
  | .toolCall _ args _ => pyStrDictLen args
  | .toolReturn _ c _ => (c.getD "").length

/-- Spec-side token estimate, per the claim: sum of footprints over every part,
divided by 4 with integer division. -/
def claimTokenEstimate (history : List ModelMessage) : Nat :=
  ((history.map (fun m =>
    match m with
    | .request ps => (ps.map claimRequestChars).sum
    | .response ps => (ps.map claimResponseChars).sum)).sum) / 4

/-- Code-side footprint of a response part after collapsing the truthiness
guards that make no difference: identical to `claimResponseChars` except that
an empty tool-argument mapping contributes nothing. -/
def codeResponseChars (p : ResponsePart) : Nat :=
  match p with
  | .text c => c.length
  | .thinking c => c.length
  | .toolCall _ args _ => if args.isEmpty then 0 else pyStrDictLen args
  | .toolReturn _ c _ => (c.getD "").length

/-! ## Tool wrappers and envelopes (`app/routes/messaging.py`, `app/routes/messaging_tools.py`) -/

/-- A value carried in the `result` field of a `tool_complete` envelope. -/
inductive EnvValue
  | vstr (s : String)
  | vbool (b : Bool)
deriving DecidableEq

/-- WebSocket envelopes emitted by a tool wrapper: `tool_start`, and
`tool_complete` with its optional `status` and `error_message` fields. -/
inductive Envelope
  | toolStart (toolName : String)
  | toolComplete (toolName : String) (result : EnvValue) (status : Option String)
      (errorMessage : Option String)
deriving DecidableEq

/-- Whether an envelope is a `tool_complete`. -/
def Envelope.isToolComplete : Envelope → Bool
  | .toolComplete _ _ _ _ => true
  | .toolStart _ => false

/-- Joint outcome of the body of a wrapper (path validation plus the inner
tool): success with an output string, a raised `ValueError`, or a raised
exception of any other class (the inner tools re-raise failures as plain
`Exception`). -/
inductive BodyOutcome
  | ok (out : String)
  | valueErr (msg : String)
  | otherErr (msg : String)
deriving DecidableEq

/-- `read_file_tool` as registered in `app/routes/messaging.py`: emits
`tool_start`, then the body; only `ValueError` is caught, and the
`tool_complete` it emits carries no `status` field.  Any other exception
escapes after only `tool_start` was emitted. -/
def readFileToolMessaging (outcome : BodyOutcome) : List Envelope × PyResult String :=
  match outcome with
  | .ok out =>
      ([.toolStart "read_file_tool",
        .toolComplete "read_file_tool" (.vstr out) none none], .returned out)
  | .valueErr m =>
      ([.toolStart "read_file_tool",
        .toolComplete "read_file_tool" (.vstr ("Error: " ++ m)) none none],
       .returned ("Error: " ++ m))
  | .otherErr m =>
      ([.toolStart "read_file_tool"], .raised (.plainExc m))

/-- `read_file_tool` as registered in `app/routes/messaging_tools.py`: the
`except Exception` branch emits `tool_complete` with `status=error` and the
error message for every raised exception. -/
def readFileToolRewrite (outcome : BodyOutcome) : List Envelope × PyResult String :=
  match outcome with
  | .ok out =>
      ([.toolStart "read_file_tool",
        .toolComplete "read_file_tool" (.vstr out) none none], .returned out)
  | .valueErr m =>
      ([.toolStart "read_file_tool",
        .toolComplete "read_file_tool" (.vstr ("Error: " ++ m)) (some "error") (some m)],
       .returned ("Error: " ++ m))
  | .otherErr m =>
      ([.toolStart "read_file_tool",
        .toolComplete "read_file_tool" (.vstr ("Error: " ++ m)) (some "error") (some m)],
       .returned ("Error: " ++ m))

/-- `file_exists_tool` (`app/routes/messaging.py`): validation failures are
`ValueError`s, caught to emit `tool_complete` with result `False` and return
`False`; a validated path returns the existence test. -/
def fileExistsTool (validation : Except String Unit) (fileIsThere : Bool) :
    List Envelope × PyResult Bool :=
  match validation with
  | .error _ =>
      ([.toolStart "file_exists_tool",
        .toolComplete "file_exists_tool" (.vbool false) none none], .returned false)
  | .ok _ =>
      ([.toolStart "file_exists_tool",
        .toolComplete "file_exists_tool" (.vbool fileIsThere) none none],
       .returned fileIsThere)

/-! ## Outcome predicates and spec-side definitions used by the theorems -/

/-- Whether a Python outcome is a normal return. -/
def PyResult.isReturned {α : Type} : PyResult α → Bool
  | .returned _ => true
  | .raised _ => false

/-- Whether a Python outcome is a raised plain `Exception`. -/
def PyResult.isPlainRaise {α : Type} : PyResult α → Bool
  | .raised (.plainExc _) => true
  | _ => false

/-- Whether a Python outcome is a raised `ModelRetry` (a retryable error). -/
def PyResult.isRetryRaise {α : Type} : PyResult α → Bool
  | .raised (.modelRetry _) => true
  | _ => false

/-- Declarative symlink condition of the validator, following the spec: every
component of the original path below the matched allowed root that is a
symbolic link resolves to a target inside some allowed root (and its
resolution succeeds); when no allowed root contains the original path, the
walk is skipped. -/
def chainSpecHolds (fs : FsOracle) (roots : List (List String)) (path : List String) : Prop :=
  match firstMatchingRoot roots path with
  | none => True
  | some root =>
      ∀ n, root.length < n → n ≤ path.length →
        fs.isLink (path.take n) = true →
        ∃ t, fs.resolveP (path.take n) = some t ∧ isWithin roots t = true

/-- A concrete filesystem oracle with no symlinks where resolution is the
identity, used to instantiate the validator theorems. -/
def plainOracle : FsOracle where
  resolveP := fun p => some p
  isLink := fun _ => false

/-- Decoding of a single raw part dictionary into a response part
(parts with an unknown kind are skipped). -/
def decodePartDict (pd : PartDict) : Option ResponsePart :=
  if pd.part_kind = some "text" then some (.text (pd.content.getD ""))
  else if pd.part_kind = some "thinking" then some (.thinking (pd.content.getD ""))
  else if pd.part_kind = some "tool-call" then
    some (.toolCall (pd.tool_name.getD "") (pd.args.getD []) pd.tool_call_id)
  else if pd.part_kind = some "tool-return" then
    some (.toolReturn (pd.tool_name.getD "") pd.content pd.tool_call_id)
  else none

/-- The truthy `tool_call_id` of a part dictionary, when it is a `tool-call`. -/
def idOfCall (pd : PartDict) : Option String :=
  if pd.part_kind = some "tool-call" then truthyOf pd.tool_call_id else none

/-- The truthy `tool_call_id` of a part dictionary, when it is a `tool-return`. -/
def idOfRet (pd : PartDict) : Option String :=
  if pd.part_kind = some "tool-return" then truthyOf pd.tool_call_id else none

/-- The truthy `tool_call_id`s appearing on `tool-call` parts of a row. -/
def truthyCallIds (pds : List PartDict) : List String :=
  pds.filterMap idOfCall

/-- The truthy `tool_call_id`s appearing on `tool-return` parts of a row. -/
def truthyReturnIds (pds : List PartDict) : List String :=
  pds.filterMap idOfRet

/-- Amended keep-condition for a decoded part: a tool-call survives when its
id is missing or empty, or is matched by a truthy tool-return id of the row. -/
def keepPartAmended (returnIds : List String) (p : ResponsePart) : Bool :=
  match p with
  | .toolCall _ _ (some s) => s = "" || returnIds.contains s
  | .toolCall _ _ none => true
  | _ => true

/-- Amended declarative decoding of an AGENT row with a structured payload. -/
def decodeAgentRowAmended (content : String) (pds : List PartDict) : ModelMessage :=
  let kept := (pds.filterMap decodePartDict).filter (keepPartAmended (truthyReturnIds pds))
  if kept.isEmpty then .response [.text content] else .response kept

/-- All `tool_call_id` values (truthy or not) of the `tool-return` parts of a
row; used to state the claim literally. -/
def allReturnIds (pds : List PartDict) : List (Option String) :=
  pds.filterMap (fun pd =>
    if pd.part_kind = some "tool-return" then some pd.tool_call_id else none)

/-- Keep-condition following the claim literally: a tool-call survives exactly
when some tool-return part of the same row carries the same `tool_call_id`. -/
def keepPartClaim (retIds : List (Option String)) (p : ResponsePart) : Bool :=
  match p with
  | .toolCall _ _ oid => retIds.contains oid
  | _ => true

/-- Decoding of an AGENT row as the claim words it: drop exactly the tool-call
parts without a matching tool-return, fall back to a text part otherwise. -/
def decodeAgentRowClaim (content : String) (pds : List PartDict) : ModelMessage :=
  let kept := (pds.filterMap decodePartDict).filter (keepPartClaim (allReturnIds pds))
  if kept.isEmpty then .response [.text content] else .response kept

/-- A dangling tool-call part whose `tool_call_id` is the empty string. -/
def cexPartDict : PartDict :=
  ⟨some "tool-call", none, some "read_file", some [], some ""⟩

/-- An AGENT row holding only `cexPartDict`. -/
def cexRow : MessageRow :=
  ⟨.agent, "hello", some [cexPartDict]⟩

/-- Per-file result of `search_in_files` in declarative form: line numbers
from `enumerate(lines, 1)` with the matched lines rstripped. -/
def searchFileSpec (pattern : String) (f : SFile) :
    Option (String × List (Nat × String)) :=
  match f.lines with
  | none => none
  | some ls =>
      let ms := (List.enumFrom 1 ls).filterMap (fun il =>
        if pySubstr pattern il.2 then some (il.1, pyRstrip il.2) else none)
      if ms.isEmpty then none else some (f.path, ms)

/-- The exclusion patterns enumerated by the spec for `list_files`. -/
def specListedExclusions : List String :=
  ["node_modules", ".git", "__pycache__", ".pytest_cache",
   ".venv", "venv", "env",
   "dist", "build", ".next", ".nuxt", ".output",
   "coverage", ".DS_Store", "*.pyc", "*.pyo", "*.pyd",
   "*.egg-info", ".tox", ".mypy_cache", ".ruff_cache",
   "target", "bin", "obj"]

/-- The history used to separate the token estimator from the claim text: a
tool call with empty arguments next to a three-character text part. -/
def cexHistory : List ModelMessage :=
  [.response [.toolCall "t" [] (some "x"), .text "abc"]]

/-- The probe observed in the background-transience scenario: the child exits
during the 2 s probe with a port-conflict message on stderr. -/
def cexProbe : ChildProbe :=
  .exitsEarly 1 "" "Error: listen EADDRINUSE: address already in use"

/-! ## Helper lemmas -/

/-- `subFind` returns the first index at which the pattern occurs. -/
theorem subFind_spec (s : List Char) : ∀ (pat : List Char) (i : Nat),
    subFind s pat = some i →
    pat.isPrefixOf (List.drop i s) = true ∧
      ∀ j, j < i → pat.isPrefixOf (List.drop j s) = false := by
  induction s with
  | nil =>
      intro pat i h
      by_cases hp : pat.isPrefixOf ([] : List Char)
      · simp only [subFind, hp, if_true, Option.some.injEq] at h
        subst h
        exact ⟨by simpa using hp, fun j hj => by omega⟩
      · simp [subFind, hp] at h
  | cons a t ih =>
      intro pat i h
      by_cases hp : pat.isPrefixOf (a :: t)
      · simp only [subFind, hp, if_true, Option.some.injEq] at h
        subst h
        exact ⟨by simpa using hp, fun j hj => by omega⟩
      · cases hfind : subFind t pat with
        | none => simp [subFind, hp, hfind] at h
        | some i' =>
            have hi : i' + 1 = i := by simp [subFind, hp, hfind] at h; omega
            subst hi
            obtain ⟨h1, h2⟩ := ih pat i' hfind
            refine ⟨by simpa using h1, ?_⟩
            intro j hj
            cases j with
            | zero => simpa using (Bool.eq_false_iff.mpr hp)
            | succ j' => simpa using h2 j' (by omega)

/-- `subFind` succeeds whenever the pattern is a prefix of the searched list. -/
theorem subFind_isSome_of_isPrefixOf (s pat : List Char)
    (h : pat.isPrefixOf s = true) : (subFind s pat).isSome = true := by
  cases s with
  | nil => simp [subFind, h]
  | cons a t => simp [subFind, h]

/-- A pattern standing between two other lists is found by `subFind`. -/
theorem subFind_isSome_of_parts (pat : List Char) :
    ∀ (x y : List Char), (subFind (x ++ pat ++ y) pat).isSome = true := by
  intro x
  induction x with
  | nil =>
      intro y
      refine subFind_isSome_of_isPrefixOf (pat ++ y) pat ?_
      simp [List.isPrefixOf_iff_prefix]
  | cons a x ih =>
      intro y
      by_cases hp : pat <+: (a :: (x ++ (pat ++ y)))
      · simp [subFind, List.isPrefixOf_iff_prefix, hp]
      · have := ih y
        simpa [subFind, List.isPrefixOf_iff_prefix, hp, Option.isSome_map] using this

/-- A string of the shape `x ++ pat ++ y` contains `pat` as a substring. -/
theorem pySubstr_of_data_parts (pat s : String) (x y : List Char)
    (h : s.data = x ++ pat.data ++ y) : pySubstr pat s = true := by
  unfold pySubstr
  rw [h]
  exact subFind_isSome_of_parts pat.data x y

/-- First-occurrence decomposition: when `old` occurs in `c`, the content
splits as `p ++ old ++ s2` with no occurrence of `old` starting inside `p`,
and `replaceFirst` rewrites exactly that occurrence. -/
theorem replaceFirst_decomp (c old new : String) (h : pySubstr old c = true) :
    ∃ p s2 : List Char,
      c.data = p ++ old.data ++ s2 ∧
      (∀ j, j < p.length → old.data.isPrefixOf (c.data.drop j) = false) ∧
      replaceFirst c old new = ⟨p ++ new.data ++ s2⟩ := by
  unfold pySubstr at h
  obtain ⟨i, hi⟩ := Option.isSome_iff_exists.mp h
  obtain ⟨h1, h2⟩ := subFind_spec c.data old.data i hi
  obtain ⟨s2, hs2⟩ := (List.isPrefixOf_iff_prefix.mp h1)
  refine ⟨c.data.take i, s2, ?_, ?_, ?_⟩
  · conv_lhs => rw [← List.take_append_drop i c.data]
    rw [← hs2, List.append_assoc]
  · intro j hj
    exact h2 j (lt_of_lt_of_le hj (by simp))
  · have hdrop : c.data.drop (i + old.length) = s2 := by
      have hlen : old.length = old.data.length := rfl
      have hsplit : c.data.drop (i + old.length) =
          (c.data.drop i).drop old.data.length := by
        rw [List.drop_drop, hlen, Nat.add_comm]
      rw [hsplit, ← hs2, List.drop_left]
    simp [replaceFirst, hi, hdrop]

/-! ## C5 — `edit_file` first-occurrence semantics -/

/-- C5: `edit_file` replaces exactly the first occurrence of `old` with `new`,
leaving the rest of the file unchanged; when `old` does not occur verbatim it
fails with an error mentioning `Could not find old_content` and leaves the
store unchanged; after writing `X` and successfully editing `X` to `Y`, a
second identical edit fails and the file content is exactly `Y`. -/
theorem c5_edit_file_replaces_first :
    (∀ (fs : FileStore) (path old new content : String),
      lookupFile fs path = some content → pySubstr old content = true →
      ∃ p s2 : List Char,
        content.data = p ++ old.data ++ s2 ∧
        (∀ j, j < p.length → old.data.isPrefixOf (content.data.drop j) = false) ∧
        editFile fs path old new =
          (setFile fs path ⟨p ++ new.data ++ s2⟩,
           .returned ("Successfully edited " ++ path))) ∧
    (∀ (fs : FileStore) (path old new content : String),
      lookupFile fs path = some content → pySubstr old content = false →
      editFile fs path old new =
        (fs, .raised (.plainExc ("Error editing file " ++ path ++
          ": Could not find old_content in file. Make sure the text matches exactly."))) ∧
      pySubstr "Could not find old_content" ("Error editing file " ++ path ++
        ": Could not find old_content in file. Make sure the text matches exactly.") = true) ∧
    ((editFile (writeFile [] "a.txt" "X").1 "a.txt" "X" "Y").1 = [("a.txt", "Y")] ∧
     (editFile (writeFile [] "a.txt" "X").1 "a.txt" "X" "Y").2 =
       .returned ("Successfully edited a.txt") ∧
     (editFile [("a.txt", "Y")] "a.txt" "X" "Y").1 = [("a.txt", "Y")] ∧
     (editFile [("a.txt", "Y")] "a.txt" "X" "Y").2 =
       .raised (.plainExc ("Error editing file a.txt: Could not find old_content in file. Make sure the text matches exactly.")) ∧
     lookupFile (editFile [("a.txt", "Y")] "a.txt" "X" "Y").1 "a.txt" = some "Y") := by
  refine ⟨?_, ?_, ?_⟩
  · intro fs path old new content hl hocc
    obtain ⟨p, s2, hdec, hmin, hrep⟩ := replaceFirst_decomp content old new hocc
    refine ⟨p, s2, hdec, hmin, ?_⟩
    unfold editFile
    rw [hl]
    simp [hocc, hrep]
  · intro fs path old new content hl hnocc
    constructor
    · unfold editFile
      rw [hl]
      simp [hnocc]
    · refine pySubstr_of_data_parts _ _
        (("Error editing file " ++ path ++ ": ").data)
        ((" in file. Make sure the text matches exactly.").data) ?_
      have hsplit : (": Could not find old_content in file. Make sure the text matches exactly." : String).data =
          (": " : String).data ++ ("Could not find old_content" : String).data ++
            (" in file. Make sure the text matches exactly." : String).data := by decide
      simp only [String.data_append, hsplit]
      simp [List.append_assoc]
  · refine ⟨by decide, by decide, by decide, by decide, by decide⟩

/-- C5 witness: the general statement applied to a one-file store holding
`XX`, replacing the first `X` only. -/
theorem c5_edit_file_replaces_first_witness :
    ∃ p s2 : List Char,
      ("XX" : String).data = p ++ ("X" : String).data ++ s2 ∧
      (∀ j, j < p.length →
        ("X" : String).data.isPrefixOf ((("XX" : String).data).drop j) = false) ∧
      editFile [("f", "XX")] "f" "X" "Y" =
        (setFile [("f", "XX")] "f" ⟨p ++ ("Y" : String).data ++ s2⟩,
         .returned ("Successfully edited " ++ "f")) :=
  c5_edit_file_replaces_first.1 [("f", "XX")] "f" "X" "Y" "XX" (by decide) (by decide)

/-! ## C9 — `file_exists_tool` hides validation failures -/

/-- C9: when sandbox validation fails, `file_exists_tool` does not raise and
does not return an error string: it emits `tool_start` followed by its
`tool_complete` envelope and returns `False` — exactly the output it produces
for a validated path that does not exist, so the two cases are
indistinguishable from the outside. -/
theorem c9_file_exists_tool_masks_invalid_path :
    ∀ (failureMsg : String) (fileIsThere : Bool),
      fileExistsTool (.error failureMsg) fileIsThere =
        ([.toolStart "file_exists_tool",
          .toolComplete "file_exists_tool" (.vbool false) none none],
         .returned false) ∧
      fileExistsTool (.error failureMsg) fileIsThere = fileExistsTool (.ok ()) false ∧
      ((fileExistsTool (.error failureMsg) fileIsThere).1.filter
        Envelope.isToolComplete).length = 1 := by
  intro failureMsg fileIsThere
  exact ⟨rfl, rfl, rfl⟩

/-! ## C3 — tool wrappers and the `tool_start`/`tool_complete` pairing -/

/-- C3: the live wrapper in `app/routes/messaging.py` catches only
`ValueError`: when the inner tool raises a plain `Exception` (as `read_file`
does for a missing file), the exception escapes after `tool_start` and no
`tool_complete` is emitted; even the caught `ValueError` path emits a
`tool_complete` without any `status` field.  The rewritten wrapper in
`app/routes/messaging_tools.py` does emit `tool_complete` with `status=error`
for every exception. -/
theorem c3_tool_complete_not_emitted_on_plain_exception :
    readFileToolMessaging (.otherErr "Error reading file app.py: File not found: app.py") =
      ([.toolStart "read_file_tool"],
       .raised (.plainExc "Error reading file app.py: File not found: app.py")) ∧
    ((readFileToolMessaging
        (.otherErr "Error reading file app.py: File not found: app.py")).1.filter
      Envelope.isToolComplete) = [] ∧
    (readFileToolMessaging (.valueErr "denied")).1 =
      [.toolStart "read_file_tool",
       .toolComplete "read_file_tool" (.vstr ("Error: denied")) none none] ∧
    ((readFileToolRewrite (.otherErr "boom")).1.filter Envelope.isToolComplete) =
      [.toolComplete "read_file_tool" (.vstr ("Error: boom")) (some "error") (some "boom")] := by
  exact ⟨rfl, rfl, rfl, rfl⟩

/-! ## C1 — `start_background_process` registry insertion and failure path -/

/-- C1: at the background-transience failing input (child exits during the 2 s
probe with `EADDRINUSE` on stderr) the transient marker is recognized, yet the
call raises a plain `Exception` (the inner `ModelRetry` is caught by the
wrapper's own `except Exception` and re-wrapped as fatal) and the registry
still holds the entry for `p1` — the entry was inserted before the probe and
is never removed on failure. -/
theorem c1_registry_keeps_entry_on_failed_probe :
    hasTransientIndicator "" "Error: listen EADDRINUSE: address already in use" = true ∧
    lookupReg (startBackgroundProcess [] "npm run dev" "p1" 4242 cexProbe).1 "p1" =
      some ⟨4242, "npm run dev", .exited 1⟩ ∧
    (startBackgroundProcess [] "npm run dev" "p1" 4242 cexProbe).2.isPlainRaise = true ∧
    (startBackgroundProcess [] "npm run dev" "p1" 4242 cexProbe).2.isRetryRaise = false ∧
    (startBackgroundProcess [] "npm run dev" "p1" 4242 cexProbe).2.isReturned = false := by
  refine ⟨by decide, by decide, by decide, by decide, by decide⟩

/-! ## C6 — `stop_background_process` removes the entry on success -/

/-- Deleting a key from the registry makes its lookup fail. -/
theorem lookupReg_eraseReg (reg : Registry) (k : String) :
    lookupReg (eraseReg reg k) k = none := by
  induction reg with
  | nil => rfl
  | cons e t ih =>
      by_cases hk : e.1 = k
      · simpa [eraseReg, List.filter_cons, hk] using ih
      · simpa [eraseReg, List.filter_cons, hk, lookupReg] using ih

/-- The ids iterated by `list_background_processes` are the registry keys. -/
theorem listEntries_map_fst (reg : Registry) :
    (listEntries reg).map (fun t => t.1) = reg.map (fun e => e.1) := by
  simp [listEntries, List.map_map]

/-- A deleted key is not among the keys of the remaining registry. -/
theorem not_mem_keys_eraseReg (reg : Registry) (k : String) :
    ¬ k ∈ (eraseReg reg k).map (fun e => e.1) := by
  intro hmem
  obtain ⟨e, he, hek⟩ := List.mem_map.mp hmem
  have hf := (List.mem_filter.mp he).2
  rw [hek] at hf
  simp at hf

/-- C6: whenever `stop_background_process` returns successfully — including
the prior-exit case — the registry entry is removed and the ids listed by
`list_background_processes` no longer include it; a child that ignores
termination receives a hard kill after the 5 s grace, and one that survives
the kill as well produces a retryable error (with the entry left in place). -/
theorem c6_stop_background_process_removes_entry :
    (∀ (reg : Registry) (processId : String) (reg2 : Registry)
        (acts : List StopAction) (res : PyResult String),
      stopBackgroundProcess reg processId = (reg2, acts, res) →
      res.isReturned = true →
      lookupReg reg2 processId = none ∧
      ¬ processId ∈ (listEntries reg2).map (fun t => t.1)) ∧
    (∀ (reg : Registry) (processId : String) (proc : BgProc),
      lookupReg reg processId = some proc → proc.state = .running .exitsOnKill →
      stopBackgroundProcess reg processId =
        (eraseReg reg processId, [.terminate, .kill],
         .returned ("Background process " ++ processId ++ " stopped successfully"))) ∧
    (∀ (reg : Registry) (processId : String) (proc : BgProc),
      lookupReg reg processId = some proc → proc.state = .running .neverDies →
      (stopBackgroundProcess reg processId).1 = reg ∧
      (stopBackgroundProcess reg processId).2.1 = [.terminate, .kill] ∧
      (stopBackgroundProcess reg processId).2.2.isRetryRaise = true) := by
  refine ⟨?_, ?_, ?_⟩
  · intro reg processId reg2 acts res h hres
    cases hl : lookupReg reg processId with
    | none =>
        simp only [stopBackgroundProcess, hl, Prod.mk.injEq] at h
        obtain ⟨rfl, rfl, rfl⟩ := h
        simp [PyResult.isReturned] at hres
    | some proc =>
        cases hstate : proc.state with
        | exited code =>
            simp only [stopBackgroundProcess, hl, hstate, Prod.mk.injEq] at h
            obtain ⟨rfl, rfl, rfl⟩ := h
            rw [listEntries_map_fst]
            exact ⟨lookupReg_eraseReg reg processId, not_mem_keys_eraseReg reg processId⟩
        | running tb =>
            cases tb with
            | exitsOnTerm =>
                simp only [stopBackgroundProcess, hl, hstate, Prod.mk.injEq] at h
                obtain ⟨rfl, rfl, rfl⟩ := h
                rw [listEntries_map_fst]
                exact ⟨lookupReg_eraseReg reg processId, not_mem_keys_eraseReg reg processId⟩
            | exitsOnKill =>
                simp only [stopBackgroundProcess, hl, hstate, Prod.mk.injEq] at h
                obtain ⟨rfl, rfl, rfl⟩ := h
                rw [listEntries_map_fst]
                exact ⟨lookupReg_eraseReg reg processId, not_mem_keys_eraseReg reg processId⟩
            | neverDies =>
                simp only [stopBackgroundProcess, hl, hstate, Prod.mk.injEq] at h
                obtain ⟨rfl, rfl, rfl⟩ := h
                simp [PyResult.isReturned] at hres
  · intro reg processId proc hl hstate
    simp [stopBackgroundProcess, hl, hstate]
  · intro reg processId proc hl hstate
    simp [stopBackgroundProcess, hl, hstate, PyResult.isRetryRaise]

/-- C6 witness: stopping an already-exited child at a concrete registry
removes the entry and the listing no longer contains its id. -/
theorem c6_stop_background_process_removes_entry_witness :
    lookupReg (stopBackgroundProcess [("p1", ⟨7, "cmd", .exited 0⟩)] "p1").1 "p1" = none ∧
    ¬ "p1" ∈ ((listEntries (stopBackgroundProcess
        [("p1", ⟨7, "cmd", .exited 0⟩)] "p1").1).map (fun t => t.1)) :=
  c6_stop_background_process_removes_entry.1
    [("p1", ⟨7, "cmd", .exited 0⟩)] "p1" _ _ _ rfl (by decide)

/-! ## C8 — token estimator -/

/-- Accumulating a mapped quantity with `foldl` equals adding its sum. -/
theorem foldl_add_map {α : Type} (f : α → Nat) :
    ∀ (l : List α) (n : Nat), l.foldl (fun a x => a + f x) n = n + (l.map f).sum := by
  intro l
  induction l with
  | nil => intro n; simp
  | cons x t ih =>
      intro n
      simp only [List.foldl_cons, List.map_cons, List.sum_cons]
      rw [ih]
      omega

/-- The truthiness guard on request-part content never changes the count. -/
theorem requestPartChars_eq (p : RequestPart) :
    requestPartChars p = claimRequestChars p := by
  cases p with
  | userPrompt c =>
      by_cases hc : c = "" <;> simp [requestPartChars, claimRequestChars, hc]
  | systemPrompt c =>
      by_cases hc : c = "" <;> simp [requestPartChars, claimRequestChars, hc]

/-- The truthiness guards on response parts collapse to `codeResponseChars`,
whose only difference from the claim is the empty tool-argument mapping. -/
theorem responsePartChars_eq (p : ResponsePart) :
    responsePartChars p = codeResponseChars p := by
  cases p with
  | text c => by_cases hc : c = "" <;> simp [responsePartChars, codeResponseChars, hc]
  | thinking c => by_cases hc : c = "" <;> simp [responsePartChars, codeResponseChars, hc]
  | toolCall tn args id => rfl
  | toolReturn tn c id =>
      cases c with
      | none => rfl
      | some s =>
          by_cases hs : s = "" <;> simp [responsePartChars, codeResponseChars, hs]

/-- The accumulating loop of the estimator equals the sum of per-message sums. -/
theorem estimateTokenCount_foldl :
    ∀ (l : List ModelMessage) (n : Nat),
      (l.foldl (fun total m =>
        match m with
        | .request ps => ps.foldl (fun a p => a + requestPartChars p) total
        | .response ps => ps.foldl (fun a p => a + responsePartChars p) total) n) =
      n + ((l.map (fun m =>
        match m with
        | .request ps => (ps.map claimRequestChars).sum
        | .response ps => (ps.map codeResponseChars).sum)).sum) := by
  intro l
  induction l with
  | nil => intro n; simp
  | cons m t ih =>
      intro n
      cases m with
      | request ps =>
          simp only [List.foldl_cons, List.map_cons, List.sum_cons]
          rw [ih, foldl_add_map, funext requestPartChars_eq]
          omega
      | response ps =>
          simp only [List.foldl_cons, List.map_cons, List.sum_cons]
          rw [ih, foldl_add_map, funext responsePartChars_eq]
          omega

/-- C8 counterexample: a tool-call with an empty argument mapping next to a
three-character text part.  The code estimates `3 / 4 = 0`; the claim, which
counts the serialized empty mapping as two characters, gives `5 / 4 = 1`. -/
theorem c8_counterexample_empty_args :
    estimateTokenCount cexHistory = 0 ∧
    claimTokenEstimate cexHistory = 1 ∧
    estimateTokenCount cexHistory ≠ claimTokenEstimate cexHistory := by
  refine ⟨by decide, by decide, by decide⟩

/-- C8 (amended): `estimate_token_count` returns the sum over every part of
its content length plus, for tool-call parts whose argument mapping is
non-empty, the length of the serialized arguments — an empty mapping
contributes nothing — divided by 4 with integer division. -/
theorem c8_estimate_token_count_amended :
    ∀ history : List ModelMessage,
      estimateTokenCount history =
        ((history.map (fun m =>
          match m with
          | .request ps => (ps.map claimRequestChars).sum
          | .response ps => (ps.map codeResponseChars).sum)).sum) / 4 := by
  intro history
  unfold estimateTokenCount
  rw [estimateTokenCount_foldl history 0]
  simp

/-! ## C7 — `search_in_files` -/

/-- The line loop of `search_in_files` in terms of `enumFrom`: collect the
numbered, rstripped lines containing the pattern. -/
theorem collectMatches_enumFrom (pattern : String) :
    ∀ (ls : List String) (i : Nat),
      collectMatches pattern i ls =
        (List.enumFrom i ls).filterMap (fun il =>
          if pySubstr pattern il.2 then some (il.1, pyRstrip il.2) else none) := by
  intro ls
  induction ls with
  | nil => intro i; rfl
  | cons l t ih =>
      intro i
      by_cases hp : pySubstr pattern l
      · simp only [collectMatches, hp, if_true, List.enumFrom_cons, List.filterMap_cons]
        rw [ih (i + 1)]
      · simp only [collectMatches, hp, Bool.false_eq_true, if_false, List.enumFrom_cons,
          List.filterMap_cons]
        rw [ih (i + 1)]

/-- C7 (amended): `search_in_files` maps, in file order, each readable file
with at least one matching line to its list of matches, where line numbers are
1-based and the content is the line with all trailing whitespace stripped
(Python `rstrip`), skipping unreadable files and files without matches. -/
theorem c7_search_in_files_amended :
    ∀ (pattern : String) (files : List SFile),
      searchInFiles pattern files = files.filterMap (searchFileSpec pattern) := by
  intro pattern files
  induction files with
  | nil => rfl
  | cons f fs ih =>
      cases hl : f.lines with
      | none => simp [searchInFiles, searchFileSpec, hl, List.filterMap_cons, ih]
      | some ls =>
          simp only [searchInFiles, searchFileSpec, hl, List.filterMap_cons]
          rw [collectMatches_enumFrom pattern ls 1, ih]
          by_cases hm : ((List.enumFrom 1 ls).filterMap (fun il =>
              if pySubstr pattern il.2 then some (il.1, pyRstrip il.2) else none)).isEmpty
          · simp [hm]
          · simp [hm]

/-- C7 counterexample: for the single readable file `f.py` with the line
`"a \n"` and pattern `"a"`, the code reports content `"a"` (all trailing
whitespace stripped), while the claim prescribes `"a "` (only trailing
newlines stripped). -/
theorem c7_counterexample_trailing_space :
    searchInFiles "a" [⟨"f.py", some ["a \n"]⟩] = [("f.py", [(1, "a")])] ∧
    stripTrailingNewlines "a \n" = "a " ∧
    ("a" : String) ≠ "a " := by
  refine ⟨by decide, by decide, by decide⟩

/-! ## C4 — history decoding -/

/-- `filterMap` over a cons, stated with `Option.toList`. -/
theorem filterMap_cons_toList {α β : Type} (f : α → Option β) (a : α) (l : List α) :
    (a :: l).filterMap f = (f a).toList ++ l.filterMap f := by
  cases h : f a <;> simp [List.filterMap_cons, h]

/-- One decoding step appends the decoded part and the truthy ids. -/
theorem decodeStep_eq (acc : List ResponsePart × List String × List String)
    (pd : PartDict) :
    decodeStep acc pd =
      (acc.1 ++ (decodePartDict pd).toList,
       acc.2.1 ++ (idOfCall pd).toList,
       acc.2.2 ++ (idOfRet pd).toList) := by
  by_cases h1 : pd.part_kind = some "text"
  · simp [decodeStep, decodePartDict, idOfCall, idOfRet, h1]
  · by_cases h2 : pd.part_kind = some "thinking"
    · simp [decodeStep, decodePartDict, idOfCall, idOfRet, h1, h2]
    · by_cases h3 : pd.part_kind = some "tool-call"
      · simp [decodeStep, decodePartDict, idOfCall, idOfRet, addTruthy, h1, h2, h3]
      · by_cases h4 : pd.part_kind = some "tool-return"
        · simp [decodeStep, decodePartDict, idOfCall, idOfRet, addTruthy, h1, h2, h3, h4]
        · simp [decodeStep, decodePartDict, idOfCall, idOfRet, h1, h2, h3, h4]

/-- The decoding loop computes the decoded parts and both truthy id sets. -/
theorem decode_foldl :
    ∀ (pds : List PartDict) (acc : List ResponsePart × List String × List String),
      pds.foldl decodeStep acc =
        (acc.1 ++ pds.filterMap decodePartDict,
         acc.2.1 ++ truthyCallIds pds,
         acc.2.2 ++ truthyReturnIds pds) := by
  intro pds
  induction pds with
  | nil => intro acc; simp [truthyCallIds, truthyReturnIds]
  | cons pd rest ih =>
      intro acc
      simp only [List.foldl_cons]
      rw [ih (decodeStep acc pd), decodeStep_eq]
      simp [truthyCallIds, truthyReturnIds, filterMap_cons_toList, List.append_assoc]

/-- `truthyOf` yields only non-empty ids, read off the stored id. -/
theorem truthyOf_eq_some (o : Option String) (s : String)
    (h : truthyOf o = some s) : o = some s ∧ s ≠ "" := by
  cases o with
  | none => simp [truthyOf] at h
  | some s2 =>
      by_cases hs : s2 = ""
      · simp [truthyOf, hs] at h
      · simp only [truthyOf, hs, if_false] at h
        obtain rfl : s2 = s := by simpa using h
        exact ⟨rfl, hs⟩

/-- Members of the truthy call-id set are non-empty. -/
theorem mem_truthyCallIds_ne_empty (pds : List PartDict) (s : String)
    (h : s ∈ truthyCallIds pds) : s ≠ "" := by
  obtain ⟨pd, _, hid⟩ := List.mem_filterMap.mp h
  unfold idOfCall at hid
  by_cases hk : pd.part_kind = some "tool-call"
  · rw [if_pos hk] at hid
    exact (truthyOf_eq_some _ _ hid).2
  · simp [hk] at hid

/-- Inversion: a decoded tool-call part comes from a `tool-call` dictionary
carrying the same id. -/
theorem decodePartDict_toolCall (pd : PartDict) (tn : String)
    (args : List (String × String)) (oid : Option String)
    (h : decodePartDict pd = some (.toolCall tn args oid)) :
    pd.part_kind = some "tool-call" ∧ pd.tool_call_id = oid := by
  by_cases h1 : pd.part_kind = some "text"
  · simp [decodePartDict, h1] at h
  · by_cases h2 : pd.part_kind = some "thinking"
    · simp [decodePartDict, h1, h2] at h
    · by_cases h3 : pd.part_kind = some "tool-call"
      · simp [decodePartDict, h1, h2, h3] at h
        exact ⟨h3, h.2.2⟩
      · by_cases h4 : pd.part_kind = some "tool-return"
        · simp [decodePartDict, h1, h2, h3, h4] at h
        · simp [decodePartDict, h1, h2, h3, h4] at h

/-- A decoded tool-call with non-empty id has its id in the truthy call set. -/
theorem mem_truthyCallIds_of_decoded (pds : List PartDict) (pd : PartDict)
    (hpd : pd ∈ pds) (s : String) (hs : s ≠ "")
    (hk : pd.part_kind = some "tool-call") (hid : pd.tool_call_id = some s) :
    s ∈ truthyCallIds pds := by
  refine List.mem_filterMap.mpr ⟨pd, hpd, ?_⟩
  simp [idOfCall, hk, hid, truthyOf, hs]

/-- On parts actually decoded from the row, the code's unprocessed-call filter
agrees with the amended keep-condition. -/
theorem keep_eq_on_decoded (pds : List PartDict) (p : ResponsePart)
    (hp : p ∈ pds.filterMap decodePartDict) :
    (!isUnprocessedCall
      ((truthyCallIds pds).filter (fun s => !((truthyReturnIds pds).contains s))) p) =
    keepPartAmended (truthyReturnIds pds) p := by
  cases p with
  | text c => rfl
  | thinking c => rfl
  | toolReturn tn c oid => rfl
  | toolCall tn args oid =>
      cases oid with
      | none => rfl
      | some s =>
          by_cases hs : s = ""
          · subst hs
            have hnot : ("" : String) ∉ (truthyCallIds pds).filter
                (fun s2 => !((truthyReturnIds pds).contains s2)) := fun hmem =>
              mem_truthyCallIds_ne_empty pds "" (List.mem_filter.mp hmem).1 rfl
            have h1 : isUnprocessedCall
                ((truthyCallIds pds).filter
                  (fun s2 => !((truthyReturnIds pds).contains s2)))
                (ResponsePart.toolCall tn args (some "")) = false := by
              simp only [isUnprocessedCall]
              exact decide_eq_false hnot
            rw [h1]
            simp [keepPartAmended]
          · obtain ⟨pd, hpdmem, hdec⟩ := List.mem_filterMap.mp hp
            obtain ⟨hk, hid⟩ := decodePartDict_toolCall pd tn args (some s) hdec
            have hcall : s ∈ truthyCallIds pds :=
              mem_truthyCallIds_of_decoded pds pd hpdmem s hs hk hid
            by_cases hr : (truthyReturnIds pds).contains s = true
            · have hnot : s ∉ (truthyCallIds pds).filter
                  (fun s2 => !((truthyReturnIds pds).contains s2)) := by
                intro hmem
                have h2 := (List.mem_filter.mp hmem).2
                rw [hr] at h2
                simp at h2
              have h1 : isUnprocessedCall
                  ((truthyCallIds pds).filter
                    (fun s2 => !((truthyReturnIds pds).contains s2)))
                  (ResponsePart.toolCall tn args (some s)) = false := by
                simp only [isUnprocessedCall]
                exact decide_eq_false hnot
              rw [h1]
              have hmemr : s ∈ truthyReturnIds pds := by simpa using hr
              simp [keepPartAmended, hs, hmemr]
            · have hrf : (truthyReturnIds pds).contains s = false :=
                Bool.not_eq_true _ ▸ (by simpa using hr)
              have hmem : s ∈ (truthyCallIds pds).filter
                  (fun s2 => !((truthyReturnIds pds).contains s2)) := by
                refine List.mem_filter.mpr ⟨hcall, ?_⟩
                rw [hrf]
                rfl
              have h1 : isUnprocessedCall
                  ((truthyCallIds pds).filter
                    (fun s2 => !((truthyReturnIds pds).contains s2)))
                  (ResponsePart.toolCall tn args (some s)) = true := by
                simp only [isUnprocessedCall]
                exact decide_eq_true hmem
              rw [h1]
              have hnomem : s ∉ truthyReturnIds pds := fun hm => hr (by simpa using hm)
              simp [keepPartAmended, hs, hnomem]

/-- The operational row decoding equals the amended declarative decoding. -/
theorem decodeAgentRow_eq_amended (content : String) (pds : List PartDict) :
    decodeAgentRow content pds = decodeAgentRowAmended content pds := by
  unfold decodeAgentRow decodeAgentRowAmended
  rw [decode_foldl pds ([], [], [])]
  simp only [List.nil_append]
  have hfe : (pds.filterMap decodePartDict).filter
      (fun p => !isUnprocessedCall
        ((truthyCallIds pds).filter (fun s => !((truthyReturnIds pds).contains s))) p) =
      (pds.filterMap decodePartDict).filter (keepPartAmended (truthyReturnIds pds)) :=
    List.filter_congr (fun p hp => keep_eq_on_decoded pds p hp)
  by_cases hu : ((truthyCallIds pds).filter
      (fun s => !((truthyReturnIds pds).contains s))).isEmpty
  · have hnilu : (truthyCallIds pds).filter
        (fun s => !((truthyReturnIds pds).contains s)) = [] :=
      List.isEmpty_iff.mp hu
    have hid : (pds.filterMap decodePartDict).filter
        (keepPartAmended (truthyReturnIds pds)) = pds.filterMap decodePartDict := by
      rw [← hfe, hnilu]
      have : ∀ p ∈ pds.filterMap decodePartDict,
          (!isUnprocessedCall [] p) = true := by
        intro p _
        cases p with
        | toolCall tn args oid => cases oid <;> simp [isUnprocessedCall]
        | text c => rfl
        | thinking c => rfl
        | toolReturn tn c oid => rfl
      rw [List.filter_congr this, List.filter_true]
    simp only [hu, if_true, hid]
  · have hcond : ((truthyCallIds pds).filter
        (fun s => !((truthyReturnIds pds).contains s))).isEmpty = false :=
      Bool.eq_false_iff.mpr hu
    simp only [hcond, Bool.false_eq_true, if_false, hfe]

/-- C4 (amended): decoding history maps USER rows to a request with one
user-prompt part, AGENT rows without a structured payload to a response with
one text part, and AGENT rows with a payload through the repair that drops
exactly the tool-call parts whose *non-empty* id has no matching non-empty
tool-return id in the same row (tool-calls with a missing or empty id are
always kept), falling back to a single text part when nothing remains. -/
theorem c4_decode_history_amended :
    ∀ rows : List MessageRow,
      convertDbMessagesToHistory rows = rows.map (fun row =>
        match row.role with
        | .user => .request [.userPrompt row.content]
        | .agent =>
            match row.parts with
            | some pds => decodeAgentRowAmended row.content pds
            | none => .response [.text row.content]) := by
  intro rows
  unfold convertDbMessagesToHistory
  have hfun : convertRow = (fun row : MessageRow =>
      match row.role with
      | .user => ModelMessage.request [.userPrompt row.content]
      | .agent =>
          match row.parts with
          | some pds => decodeAgentRowAmended row.content pds
          | none => ModelMessage.response [.text row.content]) := by
    funext row
    cases hrole : row.role with
    | user => simp [convertRow, hrole]
    | agent =>
        cases hparts : row.parts with
        | none => simp [convertRow, hrole, hparts]
        | some pds => simp [convertRow, hrole, hparts, decodeAgentRow_eq_amended]
  rw [hfun]

/-- C4 counterexample: an AGENT row whose only part is a tool-call with the
empty-string id and no tool-return.  The decoder keeps the dangling tool-call
(the empty id is falsy, so it is never collected and never dropped), while the
claim prescribes dropping it and falling back to a text part with the row's
content. -/
theorem c4_counterexample_empty_id :
    convertDbMessagesToHistory [cexRow] =
      [.response [.toolCall "read_file" [] (some "")]] ∧
    decodeAgentRowClaim "hello" [cexPartDict] = .response [.text "hello"] ∧
    convertDbMessagesToHistory [cexRow] ≠ [decodeAgentRowClaim "hello" [cexPartDict]] := by
  refine ⟨by decide, by decide, by decide⟩

/-! ## C10 — `list_files` default exclusions -/

/-- Membership in a sorted insertion. -/
theorem mem_insertSorted (x y : String) :
    ∀ l : List String, (y ∈ insertSorted x l ↔ y = x ∨ y ∈ l) := by
  intro l
  induction l with
  | nil => simp [insertSorted]
  | cons z zs ih =>
      by_cases hc : x ≤ z
      · simp [insertSorted, hc]
      · simp only [insertSorted, hc, if_false, List.mem_cons, ih]
        tauto

/-- `sortStrings` is a permutation in the membership sense. -/
theorem mem_sortStrings (y : String) :
    ∀ l : List String, (y ∈ sortStrings l ↔ y ∈ l) := by
  intro l
  induction l with
  | nil => simp [sortStrings]
  | cons x xs ih => simp [sortStrings, mem_insertSorted, ih]

/-- A non-wildcard exclusion pattern equal to some component excludes the path. -/
theorem shouldExclude_of_component (gitignoreMatch : Option (String → Bool))
    (exclusions : List String) (comps : List String) (e : String)
    (he : e ∈ exclusions) (hc : e ∈ comps) (hstar : strStartsWith e "*" = false) :
    shouldExclude gitignoreMatch exclusions comps = true := by
  unfold shouldExclude
  refine Bool.or_eq_true _ _ |>.mpr (Or.inr ?_)
  refine List.any_eq_true.mpr ⟨e, he, ?_⟩
  refine List.any_eq_true.mpr ⟨e, hc, ?_⟩
  simp [matchesExclusion, hstar]

/-- C10: the default exclusions are strictly larger than the spec's enumerated
set — `.env`, `.coverage` and `htmlcov` are excluded in addition — so no path
with such a component ever appears in a default listing, while passing an
explicit empty list disables all pattern exclusions (leaving only the
`.gitignore` filter and the file/directory selection). -/
theorem c10_list_files_default_exclusions :
    (∀ s ∈ specListedExclusions, s ∈ defaultExclusions) ∧
    (".env" ∈ defaultExclusions ∧ ".coverage" ∈ defaultExclusions ∧
      "htmlcov" ∈ defaultExclusions) ∧
    (".env" ∉ specListedExclusions ∧ ".coverage" ∉ specListedExclusions ∧
      "htmlcov" ∉ specListedExclusions) ∧
    (∀ (entries : List DirEntry) (includeDirs : Bool)
        (gitignoreMatch : Option (String → Bool)) (s : String),
      s ∈ listFiles entries none includeDirs gitignoreMatch →
      ∃ e, e ∈ entries ∧ relPathStr e.comps = s ∧
        ".env" ∉ e.comps ∧ ".coverage" ∉ e.comps ∧ "htmlcov" ∉ e.comps) ∧
    (∀ (entries : List DirEntry) (includeDirs : Bool)
        (gitignoreMatch : Option (String → Bool)),
      listFiles entries (some []) includeDirs gitignoreMatch =
        sortStrings ((entries.filter (fun e =>
          (!(match gitignoreMatch with
             | some g => g (relPathStr e.comps)
             | none => false)) && (e.isFile || includeDirs))).map
            (fun e => relPathStr e.comps))) := by
  refine ⟨by decide, ⟨by decide, by decide, by decide⟩,
    ⟨by decide, by decide, by decide⟩, ?_, ?_⟩
  · intro entries includeDirs gitignoreMatch s hs
    unfold listFiles at hs
    rw [mem_sortStrings] at hs
    obtain ⟨e, hef, heq⟩ := List.mem_map.mp hs
    obtain ⟨he, hcond⟩ := List.mem_filter.mp hef
    obtain ⟨hnex, _⟩ := Bool.and_eq_true _ _ |>.mp hcond
    have hsex : shouldExclude gitignoreMatch defaultExclusions e.comps = false := by
      simpa using hnex
    refine ⟨e, he, heq, ?_, ?_, ?_⟩
    · intro hbad
      rw [shouldExclude_of_component gitignoreMatch defaultExclusions e.comps ".env"
        (by decide) hbad (by decide)] at hsex
      cases hsex
    · intro hbad
      rw [shouldExclude_of_component gitignoreMatch defaultExclusions e.comps ".coverage"
        (by decide) hbad (by decide)] at hsex
      cases hsex
    · intro hbad
      rw [shouldExclude_of_component gitignoreMatch defaultExclusions e.comps "htmlcov"
        (by decide) hbad (by decide)] at hsex
      cases hsex
  · intro entries includeDirs gitignoreMatch
    show sortStrings ((entries.filter (fun e =>
        !shouldExclude gitignoreMatch [] e.comps && (e.isFile || includeDirs))).map
          (fun e => relPathStr e.comps)) = _
    have hfun : (fun e : DirEntry =>
        !shouldExclude gitignoreMatch [] e.comps && (e.isFile || includeDirs)) =
        (fun e : DirEntry =>
          (!(match gitignoreMatch with
             | some g => g (relPathStr e.comps)
             | none => false)) && (e.isFile || includeDirs)) := by
      funext e
      simp [shouldExclude]
    rw [hfun]

/-- C10 witness: in a directory holding `.env/k` and `a.py`, the default
listing contains `a.py`, and the theorem recovers an originating entry free of
the extra default-excluded components. -/
theorem c10_list_files_default_exclusions_witness :
    ∃ e, e ∈ [(⟨[".env", "k"], true⟩ : DirEntry), ⟨["a.py"], true⟩] ∧
      relPathStr e.comps = "a.py" ∧
      ".env" ∉ e.comps ∧ ".coverage" ∉ e.comps ∧ "htmlcov" ∉ e.comps :=
  c10_list_files_default_exclusions.2.2.2.1
    [⟨[".env", "k"], true⟩, ⟨["a.py"], true⟩] false none "a.py" (by decide)

/-! ## C2 — path validator -/

/-- Re-indexing of a per-prefix property along one path component. -/
theorem prefix_shift_iff (Q : List String → Prop) (c : String) (rest cur : List String) :
    (∀ k, 0 < k → k ≤ rest.length + 1 → Q (cur ++ (c :: rest).take k)) ↔
    (Q (cur ++ [c]) ∧
      ∀ k, 0 < k → k ≤ rest.length → Q ((cur ++ [c]) ++ rest.take k)) := by
  have hsplit : ∀ k : Nat,
      cur ++ (c :: rest).take (k + 1) = (cur ++ [c]) ++ rest.take k := by
    intro k
    simp [List.take_succ_cons]
  constructor
  · intro hall
    refine ⟨?_, ?_⟩
    · have h1 := hall 1 (by omega) (by omega)
      rwa [show cur ++ (c :: rest).take 1 = cur ++ [c] from by simp] at h1
    · intro k hk hk2
      have h2 := hall (k + 1) (by omega) (by omega)
      rwa [hsplit k] at h2
  · intro hpair k hk hk2
    cases k with
    | zero => omega
    | succ k' =>
        cases k' with
        | zero =>
            rw [show cur ++ (c :: rest).take 1 = cur ++ [c] from by simp]
            exact hpair.1
        | succ k'' =>
            rw [hsplit (k'' + 1)]
            exact hpair.2 (k'' + 1) (by omega) (by omega)

/-- The walk of the symlink chain succeeds exactly when every prefix extending
the current position that is a symlink resolves into an allowed root. -/
theorem walkChain_ok_iff (fs : FsOracle) (roots : List (List String)) :
    ∀ (rest cur : List String),
      walkChain fs roots cur rest = .ok () ↔
      ∀ k, 0 < k → k ≤ rest.length →
        fs.isLink (cur ++ rest.take k) = true →
        ∃ t, fs.resolveP (cur ++ rest.take k) = some t ∧ isWithin roots t = true := by
  intro rest
  induction rest with
  | nil =>
      intro cur
      constructor
      · intro _ k hk hk2 _
        simp only [List.length_nil] at hk2
        omega
      · intro _
        rfl
  | cons c rest ih =>
      intro cur
      rw [show (c :: rest).length = rest.length + 1 from rfl]
      rw [prefix_shift_iff (fun pre =>
        fs.isLink pre = true →
          ∃ t, fs.resolveP pre = some t ∧ isWithin roots t = true) c rest cur]
      by_cases hlink : fs.isLink (cur ++ [c]) = true
      · cases hres : fs.resolveP (cur ++ [c]) with
        | none =>
            constructor
            · intro hw
              exfalso
              simp [walkChain, hlink, hres] at hw
            · intro hpair
              exfalso
              obtain ⟨t, ht, -⟩ := hpair.1 hlink
              exact Option.noConfusion ht
        | some tgt =>
            by_cases hwin : isWithin roots tgt = true
            · have hred : walkChain fs roots cur (c :: rest) =
                  walkChain fs roots (cur ++ [c]) rest := by
                simp [walkChain, hlink, hres, hwin]
              rw [hred, ih (cur ++ [c])]
              constructor
              · intro hall
                exact ⟨fun _ => ⟨tgt, rfl, hwin⟩, hall⟩
              · intro hpair
                exact hpair.2
            · constructor
              · intro hw
                exfalso
                simp [walkChain, hlink, hres, hwin] at hw
              · intro hpair
                exfalso
                obtain ⟨t, ht, hwt⟩ := hpair.1 hlink
                obtain rfl : tgt = t := by simpa using ht
                exact hwin hwt
      · have hred : walkChain fs roots cur (c :: rest) =
            walkChain fs roots (cur ++ [c]) rest := by
          simp [walkChain, hlink]
        rw [hred, ih (cur ++ [c])]
        constructor
        · intro hall
          exact ⟨fun hl => absurd hl hlink, hall⟩
        · intro hpair
          exact hpair.2

/-- The symlink-chain check succeeds exactly when the declarative per-prefix
condition below the matched root holds. -/
theorem checkSymlinkChain_ok_iff (fs : FsOracle) (roots : List (List String))
    (path : List String) :
    checkSymlinkChain fs roots path = .ok () ↔ chainSpecHolds fs roots path := by
  unfold checkSymlinkChain chainSpecHolds
  cases hroot : firstMatchingRoot roots path with
  | none => simp
  | some root =>
      have hpre : root.isPrefixOf path = true := by
        have h2 : roots.find? (fun r => r.isPrefixOf path) = some root := hroot
        simpa using List.find?_some h2
      obtain ⟨tail, htail⟩ := List.isPrefixOf_iff_prefix.mp hpre
      have hdrop : path.drop root.length = tail := by
        rw [← htail, List.drop_left]
      have hlen : path.length = root.length + tail.length := by
        rw [← htail, List.length_append]
      have htake : ∀ n, root.length ≤ n →
          path.take n = root ++ tail.take (n - root.length) := by
        intro n hn
        rw [← htail, List.take_append_eq_append_take, List.take_of_length_le hn]
      rw [walkChain_ok_iff fs roots (path.drop root.length) root, hdrop]
      constructor
      · intro hall n hn1 hn2 hl
        have h1 : path.take n = root ++ tail.take (n - root.length) :=
          htake n (by omega)
        rw [h1] at hl ⊢
        exact hall (n - root.length) (by omega) (by omega) hl
      · intro hall k hk1 hk2 hl
        have h1 : path.take (root.length + k) = root ++ tail.take k := by
          rw [htake (root.length + k) (by omega), Nat.add_sub_cancel_left]
        have h2 := hall (root.length + k) (by omega) (by omega)
        rw [h1] at h2
        exact h2 hl

/-- C2: `PathValidator.validate` returns the resolved path exactly when
resolution succeeds, the resolved path is contained in an allowed root under
component-wise prefix containment, and every component of the original path
below the matched allowed root that is a symlink resolves to a target inside
some allowed root; in every other case it raises and accepts nothing. -/
theorem c2_path_validator_validate :
    ∀ (fs : FsOracle) (cwd : List String) (roots : List (List String))
      (p : InputPath) (res : List String),
      validate fs cwd roots p = .ok res ↔
        (fs.resolveP (origPath cwd p) = some res ∧
         isWithin roots res = true ∧
         chainSpecHolds fs roots (origPath cwd p)) := by
  intro fs cwd roots p res
  cases hres : fs.resolveP (origPath cwd p) with
  | none =>
      have hval : validate fs cwd roots p = .error "Failed to resolve path" := by
        simp [validate, hres]
      rw [hval]
      constructor
      · intro h
        exact Except.noConfusion h
      · rintro ⟨h1, -, -⟩
        exact Option.noConfusion h1
  | some r =>
      by_cases hwin : isWithin roots r = true
      · cases hchain : checkSymlinkChain fs roots (origPath cwd p) with
        | error e =>
            have hval : validate fs cwd roots p = .error e := by
              simp [validate, hres, hwin, hchain]
            rw [hval]
            constructor
            · intro h
              exact Except.noConfusion h
            · rintro ⟨h1, h2, h3⟩
              have hok := (checkSymlinkChain_ok_iff fs roots (origPath cwd p)).mpr h3
              rw [hchain] at hok
              exact Except.noConfusion hok
        | ok u =>
            cases u
            have hval : validate fs cwd roots p = .ok r := by
              simp [validate, hres, hwin, hchain]
            rw [hval]
            have hspec := (checkSymlinkChain_ok_iff fs roots (origPath cwd p)).mp hchain
            constructor
            · intro h
              obtain rfl : r = res := by simpa using h
              exact ⟨rfl, hwin, hspec⟩
            · rintro ⟨h1, -, -⟩
              obtain rfl : r = res := by simpa using h1
              rfl
      · have hwf : isWithin roots r = false := Bool.eq_false_iff.mpr hwin
        have hval : validate fs cwd roots p =
            .error "Path is not within allowed directories" := by
          simp [validate, hres, hwf]
        rw [hval]
        constructor
        · intro h
          exact Except.noConfusion h
        · rintro ⟨h1, h2, -⟩
          obtain rfl : r = res := by simpa using h1
          exact absurd h2 hwin

/-- C2 witness: with an identity-resolving, symlink-free oracle, a path inside
the single allowed root `tmp` validates to itself. -/
theorem c2_path_validator_validate_witness :
    validate plainOracle [] [["tmp"]] ⟨true, ["tmp", "a"]⟩ = .ok ["tmp", "a"] :=
  (c2_path_validator_validate plainOracle [] [["tmp"]] ⟨true, ["tmp", "a"]⟩
      ["tmp", "a"]).mpr
    ⟨rfl, by decide, by
      unfold chainSpecHolds
      have hroot : firstMatchingRoot [["tmp"]] (origPath [] ⟨true, ["tmp", "a"]⟩) =
          some ["tmp"] := by decide
      rw [hroot]
      intro n h1 h2 h3
      exact absurd h3 (by simp [plainOracle])⟩

end ProjectX
